import Mathlib

/-!
A verification development for the watermarking tool `watermarker.py`
of Wills-Python-Toolbox.  The pure compositing core (geometry, resize
arithmetic, alpha blending, tiling, orchestration and its error paths)
is embedded shallowly; pixel-level behaviour of the imaging library
calls (`Image.alpha_composite`, `Image.paste` with a mask,
`ImageDraw.text`, `ImageEnhance.Brightness`, `Image.convert`) is
modelled per-pixel following the compositing formulas of the design
document (§4.3–§4.5), with the library's round-to-nearest-by-255
integer division.
-/

namespace Watermarker

/-- One RGBA pixel, 8 bits per channel (values are intended in 0..255). -/
@[ext]
structure Pixel where
  r : ℕ
  g : ℕ
  b : ℕ
  a : ℕ
deriving DecidableEq, Repr

/-- An in-memory RGBA image: width, height and a pixel lookup.
Only coordinates with `x < w` and `y < h` are meaningful; every
operation below leaves other coordinates untouched. -/
@[ext]
structure Img where
  w : ℕ
  h : ℕ
  px : ℕ → ℕ → Pixel

/-- The library's `a*b/255` with round-to-nearest (Pillow's MULDIV255). -/
def muldiv255 (a b : ℕ) : ℕ := (a * b + 127) / 255

/-- Mask blending of one pixel, as done by `Image.paste(fg, pos, mask)`:
each channel is `d*(255-m)/255 + s*m/255` with rounding. -/
def maskBlend (d s : Pixel) (m : ℕ) : Pixel :=
  { r := muldiv255 d.r (255 - m) + muldiv255 s.r m
    g := muldiv255 d.g (255 - m) + muldiv255 s.g m
    b := muldiv255 d.b (255 - m) + muldiv255 s.b m
    a := muldiv255 d.a (255 - m) + muldiv255 s.a m }

/-- One channel of the alpha-over blend (design §4.4):
`out = fg*a + bg*(1-a)` with alpha scaled to 0..255 and rounding. -/
def blendChannel (fgc fga bgc : ℕ) : ℕ := (fgc * fga + bgc * (255 - fga) + 127) / 255

/-- Alpha-over composite of a foreground pixel onto a background pixel
(the per-pixel rule of `Image.alpha_composite`, design §4.4). -/
def compositePixel (bg fg : Pixel) : Pixel :=
  { r := blendChannel fg.r fg.a bg.r
    g := blendChannel fg.g fg.a bg.g
    b := blendChannel fg.b fg.a bg.b
    a := blendChannel 255 fg.a bg.a }

/-- `calculate_position` from `watermarker.py`: x,y of the watermark's
top-left corner for a named position choice.  The source's default
padding is 10; callers below always pass 10 explicitly, as the source
call sites rely on the default.  `//` of Python is floor division,
hence `Int.fdiv`.  Any unrecognized choice falls through to the final
bottom-right formula. -/
def calculate_position (base_width base_height wm_width wm_height : ℤ)
    (position_choice : String) (padding : ℤ) : ℤ × ℤ :=
  if position_choice = "Top Left" then
    (padding, padding)
  else if position_choice = "Top Right" then
    (base_width - wm_width - padding, padding)
  else if position_choice = "Bottom Left" then
    (padding, base_height - wm_height - padding)
  else if position_choice = "Bottom Right" then
    (base_width - wm_width - padding, base_height - wm_height - padding)
  else if position_choice = "Center" then
    ((base_width - wm_width).fdiv 2, (base_height - wm_height).fdiv 2)
  else
    (base_width - wm_width - padding, base_height - wm_height - padding)

/-- The resize-dimension arithmetic of `add_image_watermark`
(lines 206–214): if the scale factor is not 1.0, the target width is
`int(base.width*sf)` for `sf < 1` and `int(wm.width*sf)` otherwise,
and the target height is `int(width * (src_h/src_w))`; Python's `int`
truncation on these non-negative values is the floor. -/
def resizeDims (base_w src_w src_h : ℕ) (scale_factor : ℚ) : ℕ × ℕ :=
  if scale_factor ≠ 1 then
    let wm_width : ℤ :=
      if scale_factor < 1 then ⌊(base_w : ℚ) * scale_factor⌋
      else ⌊(src_w : ℚ) * scale_factor⌋
    let wm_height : ℤ := ⌊(wm_width : ℚ) * ((src_h : ℚ) / (src_w : ℚ))⌋
    (wm_width.toNat, wm_height.toNat)
  else
    (src_w, src_h)

/-- The defensive scale handling of `add_image_watermark`
(lines 190–197): a non-positive scale factor is replaced by the
default 0.2 (the `ValueError` branch likewise falls back to 0.2 and is
represented by the caller passing 0.2). -/
def clamp_scale (scale_factor : ℚ) : ℚ :=
  if scale_factor ≤ 0 then 0.2 else scale_factor

/-- Python's `range(0, stop, step)` for positive `step`: exactly the
multiples of `step` below `stop`, in increasing order. -/
def pyRange (stop step : ℕ) : List ℕ :=
  (List.range stop).filter (fun n => n % step == 0)

/-- The tile origins visited by the tiling loop of
`add_image_watermark` (lines 225–227): outer loop over `y` stepping by
`wm_height + 20`, inner loop over `x` stepping by `wm_width + 20`
(20 px inter-tile padding is a fixed constant of the source). -/
def tileOrigins (base_w base_h wm_width wm_height : ℕ) : List (ℕ × ℕ) :=
  (pyRange base_h (wm_height + 20)).flatMap fun y =>
    (pyRange base_w (wm_width + 20)).map fun x => (x, y)

/-- A fresh image of the given size with every pixel equal to `c`
(`Image.new("RGBA", size, c)`). -/
def newRGBA (w h : ℕ) (c : Pixel) : Img := ⟨w, h, fun _ _ => c⟩

/-- `dst.paste(fg, (x, y), fg)` — paste with the foreground's own alpha
channel as mask, clipped to the destination canvas.  A destination
pixel is touched only when it lies on the canvas and its mapped
foreground coordinate is in range; offsets may be negative. -/
def pasteMask (dst fg : Img) (x y : ℤ) : Img :=
  { dst with px := fun px py =>
      let i : ℤ := (px : ℤ) - x
      let j : ℤ := (py : ℤ) - y
      if px < dst.w ∧ py < dst.h ∧ 0 ≤ i ∧ i < fg.w ∧ 0 ≤ j ∧ j < fg.h then
        maskBlend (dst.px px py) (fg.px i.toNat j.toNat) ((fg.px i.toNat j.toNat).a)
      else dst.px px py }

/-- Module-level `Image.alpha_composite(bg, fg)` on equal-sized
images: the alpha-over rule at every canvas pixel. -/
def alpha_composite (bg fg : Img) : Img :=
  ⟨bg.w, bg.h, fun x y =>
    if x < bg.w ∧ y < bg.h then compositePixel (bg.px x y) (fg.px x y)
    else bg.px x y⟩

/-- In-place `bg.alpha_composite(fg, dest=(dx, dy))` with non-negative
destination, the foreground clipped at the right/bottom canvas edges. -/
def alphaCompositeAt (bg fg : Img) (dx dy : ℕ) : Img :=
  { bg with px := fun x y =>
      if x < bg.w ∧ y < bg.h ∧ dx ≤ x ∧ x < dx + fg.w ∧ dy ≤ y ∧ y < dy + fg.h then
        compositePixel (bg.px x y) (fg.px (x - dx) (y - dy))
      else bg.px x y }

/-- The opacity fold of `add_image_watermark` (lines 218–220):
`ImageEnhance.Brightness(alpha).enhance(opacity)` scales every alpha
value by `opacity` (blend of the alpha channel towards black),
truncated to an integer. -/
def applyOpacity (opacity : ℚ) (img : Img) : Img :=
  { img with px := fun x y =>
      { img.px x y with a := (⌊((img.px x y).a : ℚ) * opacity⌋).toNat } }

/-- The Resampler is abstract in the pixels it produces: a filter maps
the source image and target geometry to each target pixel.  The core
never depends on the filter's values, only on the output dimensions. -/
def resizeImg (filter : Img → ℕ → ℕ → ℕ → ℕ → Pixel) (src : Img) (tw th : ℕ) : Img :=
  ⟨tw, th, fun x y => filter src tw th x y⟩

/-- The tiling loop of `add_image_watermark` (lines 222–227): the base
is copied and the watermark alpha-composited in place at every tile
origin, in loop order. -/
def tileComposite (base fg : Img) (wm_width wm_height : ℕ) : Img :=
  (tileOrigins base.w base.h wm_width wm_height).foldl
    (fun acc p => alphaCompositeAt acc fg p.1 p.2) base

/-- The single-position branch of `add_image_watermark`
(lines 229–236): a transparent layer the size of the base receives the
watermark by masked paste at the computed offset, then is
alpha-composited over the base. -/
def singlePlacement (base wm : Img) (x y : ℤ) : Img :=
  alpha_composite base (pasteMask (newRGBA base.w base.h ⟨0, 0, 0, 0⟩) wm x y)

/-- Lines 216–236 of `add_image_watermark`: fold the opacity into the
watermark's alpha when `opacity < 1`, then either tile or place once
at the position computed by `calculate_position` (padding 10, the
source default). -/
def compositeStage (base wm : Img) (wm_width wm_height : ℕ) (opacity : ℚ)
    (position_choice : String) : Img :=
  let wm2 := if opacity < 1 then applyOpacity opacity wm else wm
  if position_choice = "Tile" then
    tileComposite base wm2 wm_width wm_height
  else
    let xy := calculate_position (base.w : ℤ) (base.h : ℤ)
      (wm_width : ℤ) (wm_height : ℤ) position_choice 10
    singlePlacement base wm2 xy.1 xy.2

/-- The body of `add_image_watermark`'s `try` block after the images
are opened (lines 206–236).  When the scale factor is not 1.0 and the
watermark has width 0, computing the aspect ratio raises
`ZeroDivisionError`, which the `except` clause turns into failure;
this is the one failure of the pure core. -/
def addImageWatermarkCore (filter : Img → ℕ → ℕ → ℕ → ℕ → Pixel)
    (base wm : Img) (opacity scale_factor : ℚ) (position_choice : String) :
    Except String Img :=
  if scale_factor ≠ 1 then
    if wm.w = 0 then
      Except.error "ZeroDivisionError: division by zero"
    else
      let p := resizeDims base.w wm.w wm.h scale_factor
      Except.ok (compositeStage base (resizeImg filter wm p.1 p.2) p.1 p.2
        opacity position_choice)
  else
    Except.ok (compositeStage base wm wm.w wm.h opacity position_choice)

/-- Colour mode of a finished image: only these two occur here. -/
inductive Mode where
  | RGBA
  | RGB
deriving DecidableEq, Repr

/-- An image together with its colour mode. -/
structure Moded where
  mode : Mode
  img : Img

/-- `img.convert("RGB")` (lines 169 and 238): the alpha channel is
dropped; an RGB pixel read back is fully opaque. -/
def convert_RGB (img : Img) : Moded :=
  ⟨Mode.RGB, { img with px := fun x y => { img.px x y with a := 255 } }⟩

/-- `add_image_watermark` from opening the images onward: the opened
base and watermark are `none` when `Image.open` raises (caught by the
`except` clause, line 242/245, returning `False`); the scale factor
has already been defensively clamped by `clamp_scale`.  The result is
the returned success flag together with the saved image, which is
converted to RGB (line 238) before saving; on failure nothing is
produced. -/
def add_image_watermark (filter : Img → ℕ → ℕ → ℕ → ℕ → Pixel)
    (openBase openWm : Option Img) (opacity scale_factor : ℚ)
    (position_choice : String) : Bool × Option Moded :=
  match openBase with
  | none => (false, none)
  | some base =>
    match openWm with
    | none => (false, none)
    | some wm =>
      match addImageWatermarkCore filter base wm opacity
          (clamp_scale scale_factor) position_choice with
      | Except.error _ => (false, none)
      | Except.ok img => (true, some (convert_RGB img))

/-- An opaque handle for a loaded font. -/
abbrev Font := ℕ

/-- The file-system and font-loading environment of the font code:
`truetype p` is `some` font when `ImageFont.truetype(p, size)`
succeeds and `none` when it raises `IOError`; `load_default` is
Pillow's built-in fallback (`none` when even it raises);
`exists_file` is `os.path.exists`. -/
structure FontEnv where
  truetype : String → Option Font
  load_default : Option Font
  exists_file : String → Bool

/-- `DEFAULT_FONT_PATHS` of `watermarker.py`: the fixed ordered list
of well-known platform font paths. -/
def DEFAULT_FONT_PATHS : List String :=
  ["arial.ttf",
   "/usr/share/fonts/truetype/dejavu/DejaVuSans-Bold.ttf",
   "/System/Library/Fonts/Supplemental/Arial.ttf"]

/-- The `for`/`try`/`except IOError: pass` loop of `find_font`
(lines 15–19): try each path in order, first success wins. -/
def try_font_paths (env : FontEnv) : List String → Option Font
  | [] => none
  | p :: rest =>
    match env.truetype p with
    | some f => some f
    | none => try_font_paths env rest

/-- `find_font` (lines 13–29): the platform path list, then the bare
font name, then `ImageFont.load_default()`. -/
def find_font (env : FontEnv) (font_name : String) : Option Font :=
  match try_font_paths env DEFAULT_FONT_PATHS with
  | some f => some f
  | none =>
    match env.truetype font_name with
    | some f => some f
    | none => env.load_default

/-- The font-selection logic of `add_text_watermark` (lines 130–139):
a non-empty existing caller-supplied path is tried first; on failure
(or when no usable path was supplied) `find_font` runs with its
default name `"arial.ttf"`. -/
def resolve_font (env : FontEnv) (font_file_path_input : String) : Option Font :=
  if font_file_path_input ≠ "" ∧ env.exists_file font_file_path_input then
    match env.truetype font_file_path_input with
    | some f => some f
    | none => find_font env "arial.ttf"
  else find_font env "arial.ttf"

/-- Modelled from the spec: the TextRasterizer drawing primitive
(`ImageDraw.text`, §4.3) is library code not present in the
repository.  Ink `(color, font_alpha)` is blended over the
transparent text layer through the glyph coverage mask `cov`
(coverage is relative to the draw origin `(x, y)`; pixels left of or
above the origin are untouched). -/
def drawTextLayer (w h : ℕ) (x y : ℤ) (cov : ℕ → ℕ → ℕ)
    (color : ℕ × ℕ × ℕ) (font_alpha : ℕ) : Img :=
  ⟨w, h, fun px py =>
    let init : Pixel := ⟨255, 255, 255, 0⟩
    let i : ℤ := (px : ℤ) - x
    let j : ℤ := (py : ℤ) - y
    if 0 ≤ i ∧ 0 ≤ j then
      maskBlend init ⟨color.1, color.2.1, color.2.2, font_alpha⟩ (cov i.toNat j.toNat)
    else init⟩

/-- The image mathematics of `add_text_watermark`'s `try` block
(lines 145–168): the measured text box `(text_width, text_height)` and
its coverage mask `cov` stand for the font rendering; the ink alpha is
`int(opacity*255)` (line 124), the position comes from
`calculate_position` with the default padding 10, and the text layer
is alpha-composited over the base. -/
def addTextWatermarkCore (base : Img) (cov : ℕ → ℕ → ℕ)
    (text_width text_height : ℕ) (color : ℕ × ℕ × ℕ) (opacity : ℚ)
    (position_choice : String) : Img :=
  let font_alpha := (⌊opacity * 255⌋).toNat
  let xy := calculate_position (base.w : ℤ) (base.h : ℤ)
    (text_width : ℤ) (text_height : ℤ) position_choice 10
  alpha_composite base (drawTextLayer base.w base.h xy.1 xy.2 cov color font_alpha)

/-- `add_text_watermark` from font resolution onward: if no font
resolves, the function returns `False` before touching the base
(lines 141–143); if opening the base raises, the `except` clause
(lines 174–176) returns `False`; otherwise the composited image is
converted to RGB (line 169) and saved. -/
def add_text_watermark (env : FontEnv) (font_file_path_input : String)
    (openBase : Option Img) (cov : ℕ → ℕ → ℕ) (text_width text_height : ℕ)
    (color : ℕ × ℕ × ℕ) (opacity : ℚ) (position_choice : String) :
    Bool × Option Moded :=
  match resolve_font env font_file_path_input with
  | none => (false, none)
  | some _ =>
    match openBase with
    | none => (false, none)
    | some base =>
      (true, some (convert_RGB
        (addTextWatermarkCore base cov text_width text_height color opacity
          position_choice)))

/-! ### Basic blending lemmas -/

theorem muldiv255_zero_left (b : ℕ) : muldiv255 0 b = 0 := by
  simp [muldiv255]

theorem muldiv255_full (a : ℕ) : muldiv255 a 255 = a := by
  unfold muldiv255; omega

/-- Compositing a fully transparent foreground pixel leaves the
background pixel unchanged. -/
theorem compositePixel_alpha_zero (bg fg : Pixel) (h : fg.a = 0) :
    compositePixel bg fg = bg := by
  unfold compositePixel blendChannel
  rw [h]
  ext <;> simp <;> omega

/-- Mask blending with two alpha-0 pixels yields alpha 0, whatever the
mask value. -/
theorem maskBlend_alpha_zero (d s : Pixel) (m : ℕ) (hd : d.a = 0) (hs : s.a = 0) :
    (maskBlend d s m).a = 0 := by
  simp [maskBlend, hd, hs, muldiv255_zero_left]

/-- Full-canvas alpha compositing with an everywhere-transparent
foreground is the identity. -/
theorem alpha_composite_transparent (bg fg : Img)
    (h : ∀ x y, (fg.px x y).a = 0) : alpha_composite bg fg = bg := by
  unfold alpha_composite
  ext x y : 3
  · rfl
  · rfl
  · dsimp only
    split
    · rw [compositePixel_alpha_zero _ _ (h x y)]
    · rfl

/-- In-place alpha compositing of an everywhere-transparent foreground
is the identity. -/
theorem alphaCompositeAt_transparent (bg fg : Img) (dx dy : ℕ)
    (h : ∀ x y, (fg.px x y).a = 0) : alphaCompositeAt bg fg dx dy = bg := by
  unfold alphaCompositeAt
  ext x y : 3
  · rfl
  · rfl
  · dsimp only
    split
    · rw [compositePixel_alpha_zero _ _ (h _ _)]
    · rfl

/-- Scaling every alpha by opacity 0 makes every pixel transparent. -/
theorem applyOpacity_zero (img : Img) (x y : ℕ) :
    ((applyOpacity 0 img).px x y).a = 0 := by
  simp [applyOpacity]

/-! ### C2: placement formulas -/

/-- Claim C2: `calculate_position` returns (padding, padding) for Top Left,
(base_w − fg_w − padding, padding) for Top Right, (padding, base_h −
fg_h − padding) for Bottom Left, (base_w − fg_w − padding, base_h −
fg_h − padding) for Bottom Right, the floor-division midpoint for
Center, and the Bottom Right formula for any unrecognized position;
for base 100×100, watermark 20×20, padding 10 it yields (10,10),
(70,10), (10,70), (70,70) and (40,40). -/
theorem calculate_position_spec :
    ∀ (bw bh ww wh padding : ℤ),
      calculate_position bw bh ww wh "Top Left" padding = (padding, padding) ∧
      calculate_position bw bh ww wh "Top Right" padding = (bw - ww - padding, padding) ∧
      calculate_position bw bh ww wh "Bottom Left" padding = (padding, bh - wh - padding) ∧
      calculate_position bw bh ww wh "Bottom Right" padding
        = (bw - ww - padding, bh - wh - padding) ∧
      calculate_position bw bh ww wh "Center" padding
        = ((bw - ww).fdiv 2, (bh - wh).fdiv 2) ∧
      (∀ pos : String,
        pos ∉ (["Top Left", "Top Right", "Bottom Left", "Bottom Right", "Center"] : List String) →
        calculate_position bw bh ww wh pos padding = (bw - ww - padding, bh - wh - padding)) ∧
      calculate_position 100 100 20 20 "Top Left" 10 = (10, 10) ∧
      calculate_position 100 100 20 20 "Top Right" 10 = (70, 10) ∧
      calculate_position 100 100 20 20 "Bottom Left" 10 = (10, 70) ∧
      calculate_position 100 100 20 20 "Bottom Right" 10 = (70, 70) ∧
      calculate_position 100 100 20 20 "Center" 10 = (40, 40) := by
  intro bw bh ww wh padding
  refine ⟨rfl, rfl, rfl, rfl, rfl, ?_, by decide, by decide, by decide, by decide, by decide⟩
  intro pos hpos
  simp only [List.mem_cons, List.not_mem_nil, or_false, not_or] at hpos
  obtain ⟨h1, h2, h3, h4, h5⟩ := hpos
  simp [calculate_position, h1, h2, h3, h4, h5]

/-- Witness for C2 at a concrete unrecognized position value. -/
theorem calculate_position_spec_witness :
    calculate_position 100 100 20 20 "Tile" 10 = (70, 70) :=
  (calculate_position_spec 100 100 20 20 10).2.2.2.2.2.1 "Tile" (by decide)

/-! ### C10: Center ignores padding -/

/-- Claim C10: the Center placement equals the integer-division midpoint and
does not depend on the padding argument. -/
theorem center_padding_independent :
    ∀ (bw bh ww wh p p' : ℤ),
      calculate_position bw bh ww wh "Center" p
        = ((bw - ww).fdiv 2, (bh - wh).fdiv 2) ∧
      calculate_position bw bh ww wh "Center" p
        = calculate_position bw bh ww wh "Center" p' :=
  fun _ _ _ _ _ _ => ⟨rfl, rfl⟩

/-! ### C6: non-positive scale factors -/

/-- Counterexample to C6: the code replaces a non-positive scale
factor with the default 0.2, not with 1.0; at scale factor 0 a
50×30 watermark on a 1000-wide base is resized to 200×120 rather than
kept at its source dimensions. -/
theorem clamp_scale_zero_is_default :
    clamp_scale 0 = 0.2 ∧ (0.2 : ℚ) ≠ 1 ∧
    resizeDims 1000 50 30 (clamp_scale 0) = (200, 120) ∧
    resizeDims 1000 50 30 1 = (50, 30) := by
  refine ⟨by norm_num [clamp_scale], by norm_num, ?_, by simp [resizeDims]⟩
  norm_num [clamp_scale, resizeDims]
  exact ⟨rfl, rfl⟩

/-- Claim C6 as amended: a non-positive scale factor is defensively replaced
by the default 0.2 (and a positive one is kept unchanged). -/
theorem clamp_scale_spec :
    ∀ sf : ℚ, (sf ≤ 0 → clamp_scale sf = 0.2) ∧ (0 < sf → clamp_scale sf = sf) := by
  intro sf
  constructor
  · intro h; simp [clamp_scale, h]
  · intro h; simp [clamp_scale, not_le.mpr h]

/-- Witness for C6 (amended) at scale factor −3. -/
theorem clamp_scale_spec_witness : clamp_scale (-3) = 0.2 :=
  (clamp_scale_spec (-3)).1 (by norm_num)

/-! ### C1: asymmetric resize policy -/

/-- Claim C1: for a positive scale factor, the resize step computes target
width `⌊base_w·sf⌋` when `sf < 1`, keeps the source dimensions when
`sf = 1`, computes target width `⌊src_w·sf⌋` when `sf > 1`, and in the
resized cases derives the target height from the target width by the
source aspect ratio; base width 1000 with sf 0.2 gives width 200, and
sf 2.0 on a 50-wide source gives width 100. -/
theorem resizeDims_spec :
    ∀ (base_w src_w src_h : ℕ) (sf : ℚ), 0 < sf →
      (sf < 1 → (resizeDims base_w src_w src_h sf).1 = (⌊(base_w : ℚ) * sf⌋).toNat) ∧
      (sf = 1 → resizeDims base_w src_w src_h sf = (src_w, src_h)) ∧
      (1 < sf → (resizeDims base_w src_w src_h sf).1 = (⌊(src_w : ℚ) * sf⌋).toNat) ∧
      (sf ≠ 1 → (resizeDims base_w src_w src_h sf).2
        = (⌊((resizeDims base_w src_w src_h sf).1 : ℚ) * (src_h : ℚ) / (src_w : ℚ)⌋).toNat) ∧
      resizeDims 1000 50 30 (1 / 5) = (200, 120) ∧
      resizeDims 400 50 30 2 = (100, 60) := by
  intro bw sw sh sf hsf
  refine ⟨?_, ?_, ?_, ?_, ?_, ?_⟩
  · intro h1
    simp [resizeDims, ne_of_lt h1, h1]
  · intro h1
    simp [resizeDims, h1]
  · intro h1
    simp [resizeDims, ne_of_gt h1, not_lt.mpr (le_of_lt h1)]
  · intro hne
    have hww : (0 : ℤ) ≤ if sf < 1 then ⌊(bw : ℚ) * sf⌋ else ⌊(sw : ℚ) * sf⌋ := by
      split <;> exact Int.floor_nonneg.mpr (by positivity)
    simp only [resizeDims, if_pos hne]
    rw [mul_div_assoc]
    congr 3
    exact_mod_cast (Int.toNat_of_nonneg hww).symm
  · norm_num [resizeDims]
    exact ⟨rfl, rfl⟩
  · norm_num [resizeDims]
    exact ⟨rfl, rfl⟩

/-- Witness for C1, all hypotheses discharged at sf = 1/2 on a
600-wide base with a 50×30 watermark. -/
theorem resizeDims_spec_witness :
    (resizeDims 600 50 30 (1 / 2)).1 = (⌊(600 : ℚ) * (1 / 2)⌋).toNat :=
  (resizeDims_spec 600 50 30 (1 / 2) (by norm_num)).1 (by norm_num)

/-! ### C3: tile origins -/

/-- Claim C3: the tiling loop visits exactly the origins `(k·(fg_w+20),
m·(fg_h+20))` that lie strictly inside the base canvas — partially
overhanging tiles are kept, not pre-excluded — and for a 220×220 base
with a 100×100 watermark (spacing 20) the origins are exactly
x ∈ {0,120}, y ∈ {0,120}. -/
theorem tileOrigins_spec :
    ∀ (bw bh fw fh x y : ℕ),
      ((x, y) ∈ tileOrigins bw bh fw fh ↔
        (∃ k, x = k * (fw + 20)) ∧ (∃ m, y = m * (fh + 20)) ∧ x < bw ∧ y < bh) ∧
      tileOrigins 220 220 100 100 = [(0, 0), (120, 0), (0, 120), (120, 120)] := by
  intro bw bh fw fh x y
  constructor
  · simp only [tileOrigins, pyRange, List.mem_flatMap, List.mem_map, List.mem_filter,
      List.mem_range, beq_iff_eq, Prod.mk.injEq]
    constructor
    · rintro ⟨yy, ⟨hy1, hy2⟩, xx, ⟨hx1, hx2⟩, hx, hy⟩
      subst hx; subst hy
      refine ⟨⟨xx / (fw + 20), ?_⟩, ⟨yy / (fh + 20), ?_⟩, hx1, hy1⟩
      · exact (Nat.div_mul_cancel (Nat.dvd_of_mod_eq_zero hx2)).symm
      · exact (Nat.div_mul_cancel (Nat.dvd_of_mod_eq_zero hy2)).symm
    · rintro ⟨⟨k, hk⟩, ⟨m, hm⟩, hx, hy⟩
      exact ⟨y, ⟨hy, by rw [hm]; exact Nat.mul_mod_left m (fh + 20)⟩,
        x, ⟨hx, by rw [hk]; exact Nat.mul_mod_left k (fw + 20)⟩, rfl, rfl⟩
  · decide

/-! ### Transparency lemmas for the composite pipeline -/

/-- Masked pasting onto a fully transparent layer keeps every alpha at
0 when the pasted foreground is itself fully transparent. -/
theorem pasteMask_transparent_alpha (w h : ℕ) (fg : Img) (x y : ℤ)
    (hfg : ∀ i j, (fg.px i j).a = 0) (px py : ℕ) :
    ((pasteMask (newRGBA w h ⟨0, 0, 0, 0⟩) fg x y).px px py).a = 0 := by
  unfold pasteMask newRGBA
  dsimp only
  split
  · exact maskBlend_alpha_zero _ _ _ rfl (hfg _ _)
  · rfl

/-- Tiling an everywhere-transparent watermark changes nothing. -/
theorem tileComposite_transparent (base fg : Img) (fw fh : ℕ)
    (hfg : ∀ i j, (fg.px i j).a = 0) : tileComposite base fg fw fh = base := by
  unfold tileComposite
  generalize tileOrigins base.w base.h fw fh = l
  induction l generalizing base with
  | nil => rfl
  | cons p t ih =>
    simp only [List.foldl_cons]
    rw [alphaCompositeAt_transparent _ _ _ _ hfg]
    exact ih base

/-- Single placement of an everywhere-transparent watermark changes
nothing, for any offset. -/
theorem singlePlacement_transparent (base fg : Img) (x y : ℤ)
    (hfg : ∀ i j, (fg.px i j).a = 0) : singlePlacement base fg x y = base := by
  unfold singlePlacement
  exact alpha_composite_transparent _ _ (pasteMask_transparent_alpha _ _ _ _ _ hfg)

/-- With opacity 0 the whole composite stage is the identity on the
base, in both the tiled and the single-position branch. -/
theorem compositeStage_opacity_zero (base wm : Img) (ww wh : ℕ) (pos : String) :
    compositeStage base wm ww wh 0 pos = base := by
  unfold compositeStage
  rw [if_pos (by norm_num : (0 : ℚ) < 1)]
  have htr : ∀ i j, ((applyOpacity 0 wm).px i j).a = 0 := fun i j => applyOpacity_zero wm i j
  split
  · exact tileComposite_transparent _ _ _ _ htr
  · exact singlePlacement_transparent _ _ _ _ htr

/-! ### C4: opacity 0 is the identity -/

/-- Claim C4: with opacity 0.0 the image-watermark core returns the base
unchanged (whenever it does not fail on a zero-width watermark), and
the text-watermark core returns the base unchanged, pixel for pixel,
for every placement, scale, coverage mask and colour. -/
theorem opacity_zero_identity :
    ∀ (filter : Img → ℕ → ℕ → ℕ → ℕ → Pixel) (base wm : Img) (sf : ℚ)
      (pos : String) (cov : ℕ → ℕ → ℕ) (tw th : ℕ) (color : ℕ × ℕ × ℕ)
      (pos' : String),
      (sf = 1 ∨ wm.w ≠ 0 →
        addImageWatermarkCore filter base wm 0 sf pos = Except.ok base) ∧
      addTextWatermarkCore base cov tw th color 0 pos' = base := by
  intro filter base wm sf pos cov tw th color pos'
  constructor
  · intro h
    unfold addImageWatermarkCore
    by_cases h1 : sf = 1
    · rw [if_neg (by simp [h1])]
      rw [compositeStage_opacity_zero]
    · have hw : wm.w ≠ 0 := h.resolve_left h1
      rw [if_pos h1, if_neg hw]
      exact congrArg Except.ok (compositeStage_opacity_zero _ _ _ _ _)
  · unfold addTextWatermarkCore
    apply alpha_composite_transparent
    intro x y
    unfold drawTextLayer
    dsimp only
    split
    · exact maskBlend_alpha_zero _ _ _ rfl (by norm_num)
    · rfl

/-- Witness for C4 on a concrete 1×1 base and watermark. -/
def cFilter : Img → ℕ → ℕ → ℕ → ℕ → Pixel := fun _ _ _ _ _ => ⟨0, 0, 0, 0⟩

def cBase : Img := ⟨1, 1, fun _ _ => ⟨10, 20, 30, 128⟩⟩

def cWm : Img := ⟨1, 1, fun _ _ => ⟨5, 6, 7, 200⟩⟩

theorem opacity_zero_identity_witness :
    addImageWatermarkCore cFilter cBase cWm 0 (1 / 2) "Center" = Except.ok cBase :=
  (opacity_zero_identity cFilter cBase cWm (1 / 2) "Center" (fun _ _ => 0) 1 1
    (1, 2, 3) "Center").1 (Or.inr (by decide))

/-! ### C5: clipping safety -/

/-- Claim C5: for every placement offset, including negative ones, the
single-position composite keeps the base dimensions, leaves every base
pixel whose mapped foreground coordinate is out of range unchanged,
leaves everything off the base canvas unchanged, and reads foreground
pixels only at in-range coordinates (two watermarks agreeing on their
own canvas produce identical results); the in-place tile composite
likewise leaves pixels outside the destination rectangle unchanged. -/
theorem clipping_safety :
    ∀ (base wm wm' : Img) (x y : ℤ),
      (singlePlacement base wm x y).w = base.w ∧
      (singlePlacement base wm x y).h = base.h ∧
      (∀ px py : ℕ,
        ¬(0 ≤ (px : ℤ) - x ∧ (px : ℤ) - x < wm.w ∧ 0 ≤ (py : ℤ) - y ∧ (py : ℤ) - y < wm.h) →
        (singlePlacement base wm x y).px px py = base.px px py) ∧
      (∀ px py : ℕ, base.w ≤ px ∨ base.h ≤ py →
        (singlePlacement base wm x y).px px py = base.px px py) ∧
      (wm.w = wm'.w → wm.h = wm'.h →
        (∀ i j, i < wm.w → j < wm.h → wm.px i j = wm'.px i j) →
        singlePlacement base wm x y = singlePlacement base wm' x y) ∧
      (∀ (fg : Img) (dx dy px py : ℕ),
        ¬(dx ≤ px ∧ px < dx + fg.w ∧ dy ≤ py ∧ py < dy + fg.h) →
        (alphaCompositeAt base fg dx dy).px px py = base.px px py) := by
  intro base wm wm' x y
  refine ⟨rfl, rfl, ?_, ?_, ?_, ?_⟩
  · intro px py hout
    unfold singlePlacement alpha_composite pasteMask newRGBA
    dsimp only
    split
    · rw [if_neg (by intro hc; exact hout ⟨hc.2.2.1, hc.2.2.2.1, hc.2.2.2.2.1, hc.2.2.2.2.2⟩)]
      exact compositePixel_alpha_zero _ _ rfl
    · rfl
  · intro px py hout
    unfold singlePlacement alpha_composite
    dsimp only
    rw [if_neg (by omega)]
  · intro h1 h2 h3
    unfold singlePlacement
    apply congrArg (alpha_composite base)
    unfold pasteMask newRGBA
    ext px py : 3
    · rfl
    · rfl
    · dsimp only
      rw [h1, h2]
      split
      · rename_i hc
        have hiw : ((px : ℤ) - x).toNat < wm.w := by rw [h1]; omega
        have hjh : ((py : ℤ) - y).toNat < wm.h := by rw [h2]; omega
        rw [h3 _ _ hiw hjh]
      · rfl
  · intro fg dx dy px py hout
    unfold alphaCompositeAt
    dsimp only
    rw [if_neg (by intro hc; exact hout ⟨hc.2.2.1, hc.2.2.2.1, hc.2.2.2.2.1, hc.2.2.2.2.2⟩)]

/-- Witness for C5 at a concrete negative offset: the base pixel under
an out-of-range mapping is untouched. -/
theorem clipping_safety_witness :
    (singlePlacement cBase cWm (-5) (-5)).px 0 0 = cBase.px 0 0 :=
  (clipping_safety cBase cWm cWm (-5) (-5)).2.2.1 0 0 (by decide)

/-! ### C7: the alpha channel is dropped inside the operation -/

/-- Counterexample to C7: on a concrete run the image returned by the
watermarking operation itself is already in RGB mode with its alpha
forced to 255, although the base pixel had alpha 128 — the conversion
happens inside `add_image_watermark` (line 238), not in the caller,
and `add_image_watermark` takes no target-format input at all, so the
stripping cannot depend on the output format. -/
theorem alpha_dropped_inside_engine :
    (add_image_watermark cFilter (some cBase) (some cWm) 1 1 "Top Left").2.map Moded.mode
      = some Mode.RGB ∧
    (add_image_watermark cFilter (some cBase) (some cWm) 1 1 "Top Left").2.map
      (fun m => (m.img.px 0 0).a) = some 255 ∧
    (cBase.px 0 0).a = 128 := by
  refine ⟨?_, ?_, rfl⟩ <;> decide

/-- Claim C7 as amended: every image returned by either watermarking
operation has been converted to RGB (every alpha forced to 255)
inside the operation, before saving and independently of any target
format. -/
theorem result_always_RGB :
    ∀ (filter : Img → ℕ → ℕ → ℕ → ℕ → Pixel) (openBase openWm : Option Img)
      (o sf : ℚ) (pos : String) (env : FontEnv) (p : String)
      (cov : ℕ → ℕ → ℕ) (tw th : ℕ) (color : ℕ × ℕ × ℕ) (o' : ℚ)
      (pos' : String) (m m' : Moded),
      ((add_image_watermark filter openBase openWm o sf pos).2 = some m →
        m.mode = Mode.RGB ∧ ∀ x y, (m.img.px x y).a = 255) ∧
      ((add_text_watermark env p openBase cov tw th color o' pos').2 = some m' →
        m'.mode = Mode.RGB ∧ ∀ x y, (m'.img.px x y).a = 255) := by
  intro filter openBase openWm o sf pos env p cov tw th color o' pos' m m'
  constructor
  · intro hm
    unfold add_image_watermark at hm
    rcases openBase with _ | base
    · simp at hm
    · rcases openWm with _ | wm
      · simp at hm
      · dsimp only at hm
        rcases hcore : addImageWatermarkCore filter base wm o (clamp_scale sf) pos
          with err | img
        · rw [hcore] at hm; simp at hm
        · rw [hcore] at hm
          simp only [Option.some.injEq] at hm
          subst hm
          exact ⟨rfl, fun x y => rfl⟩
  · intro hm
    unfold add_text_watermark at hm
    rcases hf : resolve_font env p with _ | f
    · rw [hf] at hm; simp at hm
    · rw [hf] at hm
      rcases openBase with _ | base
      · simp at hm
      · simp only [Option.some.injEq] at hm
        subst hm
        exact ⟨rfl, fun x y => rfl⟩

/-- Witness for C7 (amended) on a concrete text-watermark run. -/
def cEnv : FontEnv := ⟨fun _ => none, some 7, fun _ => false⟩

def cResult : Moded :=
  convert_RGB (addTextWatermarkCore cBase (fun _ _ => 0) 1 1 (1, 2, 3) (1 / 2) "Center")

theorem result_always_RGB_witness :
    cResult.mode = Mode.RGB ∧ (cResult.img.px 0 0).a = 255 := by
  have h := (result_always_RGB cFilter (some cBase) (some cWm) 1 1 "Top Left"
    cEnv "" (fun _ _ => 0) 1 1 (1, 2, 3) (1 / 2) "Center" cResult cResult).2 rfl
  exact ⟨h.1, h.2 0 0⟩

/-! ### C8: failure yields no partial result -/

/-- Claim C8: in both watermarking operations the returned success flag and
the produced output agree exactly — a failed invocation (`False`)
returns no image at all, and a successful one returns one; exceptions
inside the operation are converted into the `False` return rather than
propagated.  The base image itself is immutable throughout: every
compositing step builds a fresh image (the tile branch works on
`base.copy()`), so no failure can leave an observable mutation. -/
theorem failure_no_partial_result :
    ∀ (filter : Img → ℕ → ℕ → ℕ → ℕ → Pixel) (openBase openWm : Option Img)
      (o sf : ℚ) (pos : String) (env : FontEnv) (p : String)
      (cov : ℕ → ℕ → ℕ) (tw th : ℕ) (color : ℕ × ℕ × ℕ) (o' : ℚ)
      (pos' : String),
      ((add_image_watermark filter openBase openWm o sf pos).2 = none ↔
        (add_image_watermark filter openBase openWm o sf pos).1 = false) ∧
      ((add_text_watermark env p openBase cov tw th color o' pos').2 = none ↔
        (add_text_watermark env p openBase cov tw th color o' pos').1 = false) := by
  intro filter openBase openWm o sf pos env p cov tw th color o' pos'
  constructor
  · unfold add_image_watermark
    rcases openBase with _ | base
    · simp
    · rcases openWm with _ | wm
      · simp
      · dsimp only
        rcases hcore : addImageWatermarkCore filter base wm o (clamp_scale sf) pos
          with err | img <;> simp
  · unfold add_text_watermark
    rcases resolve_font env p with _ | f
    · simp
    · rcases openBase with _ | base <;> simp

/-! ### C9: font fallback chain -/

/-- If every platform font path fails, `find_font` falls through to
the bare name and then to the built-in default. -/
theorem find_font_all_paths_fail (env : FontEnv)
    (h : ∀ q ∈ DEFAULT_FONT_PATHS, env.truetype q = none) :
    find_font env "arial.ttf" = env.load_default := by
  have h1 := h "arial.ttf" (by simp [DEFAULT_FONT_PATHS])
  have h2 := h "/usr/share/fonts/truetype/dejavu/DejaVuSans-Bold.ttf"
    (by simp [DEFAULT_FONT_PATHS])
  have h3 := h "/System/Library/Fonts/Supplemental/Arial.ttf"
    (by simp [DEFAULT_FONT_PATHS])
  simp [find_font, try_font_paths, DEFAULT_FONT_PATHS, h1, h2, h3]

/-- Within the path loop the first successfully loading path wins: all
paths before it may fail, everything after it is never consulted. -/
theorem try_font_paths_first_success (env : FontEnv) (f : Font) :
    ∀ (l1 : List String) (q : String) (l2 : List String),
      (∀ r ∈ l1, env.truetype r = none) → env.truetype q = some f →
      try_font_paths env (l1 ++ q :: l2) = some f := by
  intro l1
  induction l1 with
  | nil =>
    intro q l2 _ hq
    simp [try_font_paths, hq]
  | cons r t ih =>
    intro q l2 hall hq
    have hr : env.truetype r = none := hall r (by simp)
    simp only [List.cons_append, try_font_paths, hr]
    exact ih q l2 (fun s hs => hall s (by simp [hs])) hq

/-- The path loop yields nothing exactly when every path in the list
fails to load. -/
theorem try_font_paths_eq_none_iff (env : FontEnv) :
    ∀ l : List String,
      try_font_paths env l = none ↔ ∀ q ∈ l, env.truetype q = none := by
  intro l
  induction l with
  | nil => simp [try_font_paths]
  | cons r t ih =>
    rcases hr : env.truetype r with _ | f
    · simp [try_font_paths, hr, ih]
    · simp [try_font_paths, hr]

/-- `find_font` yields nothing exactly when the whole platform list
and the built-in default fail (the bare-name retry is the first list
entry, so it adds no further case). -/
theorem find_font_eq_none_iff (env : FontEnv) :
    find_font env "arial.ttf" = none ↔
      (∀ q ∈ DEFAULT_FONT_PATHS, env.truetype q = none) ∧
      env.load_default = none := by
  unfold find_font
  rcases h1 : try_font_paths env DEFAULT_FONT_PATHS with _ | f
  · rcases h2 : env.truetype "arial.ttf" with _ | g
    · constructor
      · intro h
        exact ⟨(try_font_paths_eq_none_iff env _).mp h1, h⟩
      · intro h
        exact h.2
    · have harial := (try_font_paths_eq_none_iff env _).mp h1 "arial.ttf"
        (by simp [DEFAULT_FONT_PATHS])
      rw [harial] at h2
      cases h2
  · constructor
    · intro h
      cases h
    · rintro ⟨hall, -⟩
      have hnone := (try_font_paths_eq_none_iff env _).mpr hall
      rw [h1] at hnone
      cases hnone

/-- When the explicit caller path yields no font (because it was not
supplied, does not exist, or fails to load), resolution is exactly
`find_font` on the default name. -/
theorem resolve_font_explicit_fails (env : FontEnv) (p : String)
    (h : p ≠ "" ∧ env.exists_file p = true → env.truetype p = none) :
    resolve_font env p = find_font env "arial.ttf" := by
  unfold resolve_font
  split
  · rename_i hc
    rw [h hc]
  · rfl

/-- Claim C9: font resolution is the ordered chain explicit path →
platform path list → built-in default, first success wins: the
explicit path is used when it loads; when the explicit path yields
nothing, the first platform path that loads is used, wherever it sits
in the list, with no error propagated from the paths before it; when
the explicit path and the whole list fail, the built-in default is
used; and resolution fails exactly when every attempted source fails,
in which case the text operation returns failure and the watermark is
not applied. -/
theorem font_resolution_order :
    ∀ (env : FontEnv) (p : String) (f : Font),
      (p ≠ "" → env.exists_file p = true → env.truetype p = some f →
        resolve_font env p = some f) ∧
      (∀ (l1 : List String) (q : String) (l2 : List String),
        DEFAULT_FONT_PATHS = l1 ++ q :: l2 →
        (∀ r ∈ l1, env.truetype r = none) →
        env.truetype q = some f →
        (p ≠ "" ∧ env.exists_file p = true → env.truetype p = none) →
        resolve_font env p = some f) ∧
      (env.truetype p = none →
        (∀ q ∈ DEFAULT_FONT_PATHS, env.truetype q = none) →
        env.load_default = some f →
        resolve_font env p = some f) ∧
      (resolve_font env p = none ↔
        (p ≠ "" ∧ env.exists_file p = true → env.truetype p = none) ∧
        (∀ q ∈ DEFAULT_FONT_PATHS, env.truetype q = none) ∧
        env.load_default = none) ∧
      (resolve_font env p = none →
        ∀ (openBase : Option Img) (cov : ℕ → ℕ → ℕ) (tw th : ℕ)
          (color : ℕ × ℕ × ℕ) (o : ℚ) (pos : String),
          add_text_watermark env p openBase cov tw th color o pos
            = (false, none)) := by
  intro env p f
  refine ⟨?_, ?_, ?_, ⟨?_, ?_⟩, ?_⟩
  · intro h1 h2 h3
    simp [resolve_font, h1, h2, h3]
  · intro l1 q l2 hsplit hl1 hq hexp
    rw [resolve_font_explicit_fails env p hexp]
    unfold find_font
    rw [hsplit, try_font_paths_first_success env f l1 q l2 hl1 hq]
  · intro hp hlist hdef
    rw [resolve_font_explicit_fails env p (fun _ => hp)]
    rw [find_font_all_paths_fail env hlist, hdef]
  · intro hnone
    by_cases hc : p ≠ "" ∧ env.exists_file p = true
    · rcases hp : env.truetype p with _ | f2
      · rw [resolve_font_explicit_fails env p (fun _ => hp)] at hnone
        have hf := (find_font_eq_none_iff env).mp hnone
        exact ⟨fun _ => rfl, hf.1, hf.2⟩
      · unfold resolve_font at hnone
        rw [if_pos hc, hp] at hnone
        cases hnone
    · rw [resolve_font_explicit_fails env p (fun hcc => absurd hcc hc)] at hnone
      have hf := (find_font_eq_none_iff env).mp hnone
      exact ⟨fun hcc => absurd hcc hc, hf.1, hf.2⟩
  · rintro ⟨hexp, hall, hdef⟩
    rw [resolve_font_explicit_fails env p hexp]
    exact (find_font_eq_none_iff env).mpr ⟨hall, hdef⟩
  · intro hres openBase cov tw th color o pos
    unfold add_text_watermark
    rw [hres]

/-- Environment for the C9 witness: the explicit path and the first
platform path fail, the second platform path (the DejaVuSans case)
loads. -/
def cEnvMidList : FontEnv :=
  ⟨fun s =>
    if s = "/usr/share/fonts/truetype/dejavu/DejaVuSans-Bold.ttf" then some 7 else none,
   none, fun _ => false⟩

/-- Witness for C9: with the explicit path and the first platform path
failing, resolution returns the font loaded from the second platform
path. -/
theorem font_resolution_order_witness : resolve_font cEnvMidList "/missing.ttf" = some 7 :=
  (font_resolution_order cEnvMidList "/missing.ttf" 7).2.1
    ["arial.ttf"] "/usr/share/fonts/truetype/dejavu/DejaVuSans-Bold.ttf"
    ["/System/Library/Fonts/Supplemental/Arial.ttf"]
    (by decide) (by decide) (by decide) (fun _ => by decide)

end Watermarker
